import Mathlib

/-!
# GSAS core — shallow embedding and verification

A shallow embedding of the GSAS (Governance Substrate for Autonomous Systems)
Go core: the deterministic evaluation context (`core/deterministic_context.go`),
the primitive contract (`core/primitive_contracts.go`), the composition
operators (`core/composition_operators.go`), the determinism-enforcer lint,
the compliance checker, the proof generator and the governance engine.

Go's dynamic `interface{}` values are modelled by the inductive type `GoVal`;
Go maps `map[string]interface{}` by association lists; machine words by `Nat`
reduced modulo `2^32` / `2^64` where overflow matters.  Primitive invocation
(an effect in Go) is made observable by instrumenting each evaluation loop
with a trace of the 0-based indices of the primitives whose `Evaluate` was
called, in call order.
-/

set_option maxRecDepth 4096

namespace GSAS

/-- A dynamic Go value (`interface{}`) as it can appear in evaluation
results, contexts and signals.  Numbers carry an integer payload together
with their Go dynamic type (`int` vs `float64`); all numeric values that
occur in this codebase are integral, so an `Int` carrier is exact.
`opaque_` models a Go value that `encoding/json` cannot marshal (channel,
function, ...), tagged with the Go type name that appears in the
`json: unsupported type:` error. -/
inductive GoVal : Type where
  | vnull : GoVal
  | vbool (b : Bool) : GoVal
  | vint (n : Int) : GoVal
  | vfloat (n : Int) : GoVal
  | vstr (s : String) : GoVal
  | varr (l : List GoVal) : GoVal
  | vobj (l : List (String × GoVal)) : GoVal
  | opaque_ (goType : String) : GoVal
deriving Repr

/-- A Go `map[string]interface{}` (unique keys by construction). -/
abbrev GoMap := List (String × GoVal)

/-- Go map read `m[k]`: the stored value, or the zero value `nil`
(`GoVal.vnull`) when the key is absent. -/
def goRead (m : GoMap) (k : String) : GoVal :=
  match m with
  | [] => GoVal.vnull
  | (k', v) :: rest => if k' = k then v else goRead rest k

/-- Go map membership test (`_, ok := m[k]`). -/
def goHas (m : GoMap) (k : String) : Bool :=
  match m with
  | [] => false
  | (k', _) :: rest => k' = k || goHas rest k

/-- Go type assertion `v.(bool)` combined with the truth test: the Go idiom
`valid, ok := result["valid"].(bool); ok && valid` used by the engine and
all composition operators.  True exactly when the value is the boolean
`true`. -/
def asBoolTrue : GoVal → Bool
  | GoVal.vbool b => b
  | _ => false

/-- Go type assertion `v.(string)` with the zero value on failure. -/
def asString : GoVal → String
  | GoVal.vstr s => s
  | _ => ""

/-! ## Generic list and string helpers -/

/-- `startsWithB n h`: `n` is a prefix of `h` (boolean, on character lists). -/
def startsWithB : List Char → List Char → Bool
  | [], _ => true
  | _ :: _, [] => false
  | a :: as_, b :: bs => a == b && startsWithB as_ bs

/-- `hasSub n h`: `n` occurs as a contiguous sublist of `h`. -/
def hasSub (n : List Char) : List Char → Bool
  | [] => startsWithB n []
  | c :: cs => startsWithB n (c :: cs) || hasSub n cs

/-- Substring test on strings (models Go `strings.Contains`). -/
def hasSubS (n h : String) : Bool := hasSub n.data h.data

/-- Go `strings.Join(l, sep)`. -/
def goJoin (sep : String) : List String → String
  | [] => ""
  | [s] => s
  | s :: rest => s ++ sep ++ goJoin sep rest

/-- Iterate a function `n` times. -/
def iterN (n : Nat) (f : α → α) (a : α) : α :=
  match n with
  | 0 => a
  | k + 1 => iterN k f (f a)

/-! ## SHA-256 (FIPS 180-4) over byte lists, words as `Nat` mod `2^32` -/

/-- Reduce to a 32-bit word. -/
def w32 (n : Nat) : Nat := n % 4294967296

/-- Right-rotate a 32-bit word by `k`. -/
def rotr32 (x k : Nat) : Nat := w32 ((x >>> k) ||| (x <<< (32 - k)))

def shaCh (x y z : Nat) : Nat := Nat.xor (Nat.land x y) (Nat.land (Nat.xor x 4294967295) z)

def shaMaj (x y z : Nat) : Nat := Nat.xor (Nat.xor (Nat.land x y) (Nat.land x z)) (Nat.land y z)

def bsig0 (x : Nat) : Nat := Nat.xor (Nat.xor (rotr32 x 2) (rotr32 x 13)) (rotr32 x 22)

def bsig1 (x : Nat) : Nat := Nat.xor (Nat.xor (rotr32 x 6) (rotr32 x 11)) (rotr32 x 25)

def ssig0 (x : Nat) : Nat := Nat.xor (Nat.xor (rotr32 x 7) (rotr32 x 18)) (x >>> 3)

def ssig1 (x : Nat) : Nat := Nat.xor (Nat.xor (rotr32 x 17) (rotr32 x 19)) (x >>> 10)

/-- The 64 SHA-256 round constants (FIPS 180-4 §4.2.2), in decimal. -/
def shaK : List Nat :=
  [1116352408, 1899447441, 3049323471, 3921009573, 961987163, 1508970993,
   2453635748, 2870763221, 3624381080, 310598401, 607225278, 1426881987,
   1925078388, 2162078206, 2614888103, 3248222580, 3835390401, 4022224774,
   264347078, 604807628, 770255983, 1249150122, 1555081692, 1996064986,
   2554220882, 2821834349, 2952996808, 3210313671, 3336571891, 3584528711,
   113926993, 338241895, 666307205, 773529912, 1294757372, 1396182291,
   1695183700, 1986661051, 2177026350, 2456956037, 2730485921, 2820302411,
   3259730800, 3345764771, 3516065817, 3600352804, 4094571909, 275423344,
   430227734, 506948616, 659060556, 883997877, 958139571, 1322822218,
   1537002063, 1747873779, 1955562222, 2024104815, 2227730452, 2361852424,
   2428436474, 2756734187, 3204031479, 3329325298]

/-- The eight SHA-256 initial hash values (FIPS 180-4 §5.3.3), in decimal. -/
def shaInit : List Nat :=
  [1779033703, 3144134277, 1013904242, 2773480762,
   1359893119, 2600822924, 528734635, 1541459225]

/-- One message-schedule extension step: append word `t` (`t = ws.length ≥ 16`). -/
def shaExtendStep (ws : List Nat) : List Nat :=
  let t := ws.length
  ws ++ [w32 (ssig1 (ws.getD (t - 2) 0) + ws.getD (t - 7) 0 +
              ssig0 (ws.getD (t - 15) 0) + ws.getD (t - 16) 0)]

/-- Extend 16 schedule words to 64. -/
def shaSchedule (ws : List Nat) : List Nat := iterN 48 shaExtendStep ws

/-- One compression round on the state `[a,b,c,d,e,f,g,h]` with round constant
`k` and schedule word `w`. -/
def shaRound (st : List Nat) (kw : Nat × Nat) : List Nat :=
  match st with
  | [a, b, c, d, e, f, g, h] =>
      let t1 := w32 (h + bsig1 e + shaCh e f g + kw.1 + kw.2)
      let t2 := w32 (bsig0 a + shaMaj a b c)
      [w32 (t1 + t2), a, b, c, w32 (d + t1), e, f, g]
  | other => other

/-- Compress one 16-word block into the running state. -/
def shaCompress (st : List Nat) (block : List Nat) : List Nat :=
  let ws := shaSchedule block
  let st' := (shaK.zip ws).foldl shaRound st
  (st.zip st').map (fun p => w32 (p.1 + p.2))

/-- Big-endian bytes of `n`, width `k`. -/
def beBytes : Nat → Nat → List Nat
  | 0, _ => []
  | k + 1, n => beBytes k (n / 256) ++ [n % 256]

/-- Group bytes into big-endian 32-bit words (length a multiple of 4). -/
def be4Words : List Nat → List Nat
  | b0 :: b1 :: b2 :: b3 :: rest =>
      (b0 * 16777216 + b1 * 65536 + b2 * 256 + b3) :: be4Words rest
  | _ => []

/-- Structural worker for `chunks64`; the fuel argument only bounds the
recursion depth. -/
def chunksGo : Nat → List Nat → List (List Nat)
  | 0, _ => []
  | fuel + 1, l => if l = [] then [] else (l.take 64) :: chunksGo fuel (l.drop 64)

/-- Split a byte list into 64-byte blocks (`l.length` rounds always
suffice: every round removes at least one element of a non-empty list). -/
def chunks64 (l : List Nat) : List (List Nat) := chunksGo l.length l

/-- SHA-256 padding: `0x80`, zeros, then the 64-bit big-endian bit length. -/
def shaPad (msg : List Nat) : List Nat :=
  let len := msg.length
  msg ++ [128] ++ List.replicate ((64 - (len + 9) % 64) % 64) 0 ++ beBytes 8 (len * 8)

/-- SHA-256 digest of a byte list, as 32 bytes. -/
def sha256Bytes (msg : List Nat) : List Nat :=
  let st := ((chunks64 (shaPad msg)).map be4Words).foldl shaCompress shaInit
  st.flatMap (beBytes 4)

/-- Lowercase hexadecimal digit. -/
def hexDigitChar (n : Nat) : Char :=
  if n < 10 then Char.ofNat (48 + n) else Char.ofNat (87 + n)

/-- Lowercase hex rendering of a byte list (Go `fmt.Sprintf("%x", ...)`). -/
def hexOfBytes (bs : List Nat) : String :=
  String.mk (bs.flatMap (fun b => [hexDigitChar (b / 16), hexDigitChar (b % 16)]))

/-- UTF-8 encoding of one character. -/
def utf8Char (c : Char) : List Nat :=
  let n := c.toNat
  if n < 128 then [n]
  else if n < 2048 then [192 + n / 64, 128 + n % 64]
  else if n < 65536 then [224 + n / 4096, 128 + (n / 64) % 64, 128 + n % 64]
  else [240 + n / 262144, 128 + (n / 4096) % 64, 128 + (n / 64) % 64, 128 + n % 64]

/-- UTF-8 bytes of a string. -/
def strBytes (s : String) : List Nat := s.data.flatMap utf8Char

/-- Lowercase-hex SHA-256 of a string. -/
def sha256Hex (s : String) : String := hexOfBytes (sha256Bytes (strBytes s))

/-! ## Go `encoding/json` marshaling of dynamic values

`json.Marshal` on `map[string]interface{}` emits object keys in sorted
(byte-wise) order, escapes `<`, `>`, `&` (HTML escaping is on by default)
and control characters, and errors on unmarshalable values (channels,
functions, ...), here `GoVal.opaque_`. -/

/-- JSON escaping of one character as Go `encoding/json` performs it
(with default HTML escaping).  Go additionally escapes U+2028/U+2029. -/
def jsonEscapeChar (c : Char) : List Char :=
  if c = '"' then ['\\', '"']
  else if c = '\\' then ['\\', '\\']
  else if c = '\n' then ['\\', 'n']
  else if c = '\r' then ['\\', 'r']
  else if c = '\t' then ['\\', 't']
  else if c = '<' then '\\' :: 'u' :: '0' :: '0' :: '3' :: 'c' :: []
  else if c = '>' then '\\' :: 'u' :: '0' :: '0' :: '3' :: 'e' :: []
  else if c = '&' then '\\' :: 'u' :: '0' :: '0' :: '2' :: '6' :: []
  else if c.toNat < 32 then
    '\\' :: 'u' :: '0' :: '0' :: [hexDigitChar (c.toNat / 16), hexDigitChar (c.toNat % 16)]
  else if c.toNat = 8232 then '\\' :: 'u' :: '2' :: '0' :: '2' :: '8' :: []
  else if c.toNat = 8233 then '\\' :: 'u' :: '2' :: '0' :: '2' :: '9' :: []
  else [c]

/-- A JSON string literal for `s`. -/
def jsonQuote (s : String) : String :=
  "\"" ++ String.mk (s.data.flatMap jsonEscapeChar) ++ "\""

/-- Byte-wise (= code-point-wise) string comparison, as Go `sort.Strings`
orders map keys during marshaling. -/
def charsLt : List Char → List Char → Bool
  | [], [] => false
  | [], _ :: _ => true
  | _ :: _, [] => false
  | a :: as_, b :: bs => a.toNat < b.toNat || (a == b && charsLt as_ bs)

def strLtB (a b : String) : Bool := charsLt a.data b.data

/-- Insert into a key-sorted list of (key, rendered-value) pairs. -/
def insByKey (p : String × String) : List (String × String) → List (String × String)
  | [] => [p]
  | q :: rest => if strLtB q.1 p.1 then q :: insByKey p rest else p :: q :: rest

/-- Sort (key, rendered-value) pairs by key, ascending byte-wise. -/
def sortPairsByKey (l : List (String × String)) : List (String × String) :=
  l.foldr insByKey []

mutual

/-- `json.Marshal` of a dynamic value, as text; `none` is a marshal error.
Numbers: every number in this development is integral, and Go renders
integral `int`/`float64` values below `1e21` in plain decimal. -/
def jmVal : GoVal → Option String
  | GoVal.vnull => some "null"
  | GoVal.vbool true => some "true"
  | GoVal.vbool false => some "false"
  | GoVal.vint n => some (toString n)
  | GoVal.vfloat n => some (toString n)
  | GoVal.vstr s => some (jsonQuote s)
  | GoVal.varr l =>
      match jmList l with
      | none => none
      | some parts => some ("[" ++ goJoin "," parts ++ "]")
  | GoVal.vobj l =>
      match jmEntries l with
      | none => none
      | some entries =>
          some ("\x7b" ++
            goJoin "," ((sortPairsByKey entries).map (fun p => jsonQuote p.1 ++ ":" ++ p.2)) ++
            "\x7d")
  | GoVal.opaque_ _ => none

def jmList : List GoVal → Option (List String)
  | [] => some []
  | v :: rest =>
      match jmVal v, jmList rest with
      | some s, some ss => some (s :: ss)
      | _, _ => none

def jmEntries : GoMap → Option (List (String × String))
  | [] => some []
  | (k, v) :: rest =>
      match jmVal v, jmEntries rest with
      | some s, some ss => some ((k, s) :: ss)
      | _, _ => none

end

/-- The error text of Go's `json.Marshal` on an unmarshalable value. -/
def jsonErrText (goType : String) : String := "json: unsupported type: " ++ goType

mutual

/-- First unmarshalable Go type inside a value, if any (the type named in
the `json.Marshal` error). -/
def firstOpaque : GoVal → Option String
  | GoVal.varr l => firstOpaqueList l
  | GoVal.vobj l => firstOpaqueObj l
  | GoVal.opaque_ t => some t
  | _ => none

def firstOpaqueList : List GoVal → Option String
  | [] => none
  | v :: rest =>
      match firstOpaque v with
      | some t => some t
      | none => firstOpaqueList rest

def firstOpaqueObj : GoMap → Option String
  | [] => none
  | (_, v) :: rest =>
      match firstOpaque v with
      | some t => some t
      | none => firstOpaqueObj rest

end

/-! ## Round trip `json.Unmarshal ∘ json.Marshal` on `map[string]interface{}`

Unmarshaling into `interface{}` rebuilds the same structure with every JSON
number as `float64`; `jsonNorm*` is that composed effect, applied by
`deepCopy` only after `jmVal` certifies the value marshals. -/

mutual

def jsonNorm : GoVal → GoVal
  | GoVal.vnull => GoVal.vnull
  | GoVal.vbool b => GoVal.vbool b
  | GoVal.vint n => GoVal.vfloat n
  | GoVal.vfloat n => GoVal.vfloat n
  | GoVal.vstr s => GoVal.vstr s
  | GoVal.varr l => GoVal.varr (jsonNormList l)
  | GoVal.vobj l => GoVal.vobj (jsonNormObj l)
  | GoVal.opaque_ t => GoVal.opaque_ t

def jsonNormList : List GoVal → List GoVal
  | [] => []
  | v :: rest => jsonNorm v :: jsonNormList rest

def jsonNormObj : GoMap → GoMap
  | [] => []
  | (k, v) :: rest => (k, jsonNorm v) :: jsonNormObj rest

end

/-! ## Deterministic context (`core/deterministic_context.go`) -/

/-- `deepCopy`: a deep copy via JSON marshal/unmarshal.  A marshal error
yields an empty map (the Go code also returns an empty map when the
unmarshal step fails, which cannot happen on `json.Marshal` output). -/
def deepCopy (d : GoMap) : GoMap :=
  match jmVal (GoVal.vobj d) with
  | none => []
  | some _ => jsonNormObj d

mutual

/-- `deepCopyValue`: recursively copies maps and slices; scalar values are
returned as-is. -/
def deepCopyValue : GoVal → GoVal
  | GoVal.vobj l => GoVal.vobj (deepCopyValueObj l)
  | GoVal.varr l => GoVal.varr (deepCopyValueList l)
  | v => v

def deepCopyValueList : List GoVal → List GoVal
  | [] => []
  | v :: rest => deepCopyValue v :: deepCopyValueList rest

def deepCopyValueObj : GoMap → GoMap
  | [] => []
  | (k, v) :: rest => (k, deepCopyValue v) :: deepCopyValueObj rest

end

/-- An immutable, deterministic evaluation context. -/
structure DeterministicContext where
  data : GoMap
  time : Int
deriving Repr

/-- `NewDeterministicContext`: freezes a deep copy of `data`. -/
def NewDeterministicContext (data : GoMap) (logicalTime : Int) : DeterministicContext :=
  { data := deepCopy data, time := logicalTime }

/-- `Get`: deep copy of the stored value, or the default when absent. -/
def ctxGet (dc : DeterministicContext) (key : String) (defaultValue : GoVal) : GoVal :=
  if goHas dc.data key then deepCopyValue (goRead dc.data key) else defaultValue

/-- `Has`. -/
def ctxHas (dc : DeterministicContext) (key : String) : Bool := goHas dc.data key

/-- `Time`. -/
def ctxTime (dc : DeterministicContext) : Int := dc.time

/-- `GetItem`: deep copy of the stored value, or a key-not-found error. -/
def ctxGetItem (dc : DeterministicContext) (key : String) : Except String GoVal :=
  if goHas dc.data key then Except.ok (deepCopyValue (goRead dc.data key))
  else Except.error ("key '" ++ key ++ "' not found")

/-- `SetItem` always fails: the context is immutable. -/
def ctxSetItem (_dc : DeterministicContext) (_key : String) (_value : GoVal) : Option String :=
  some "context is immutable"

/-- `DeleteItem` always fails: the context is immutable. -/
def ctxDeleteItem (_dc : DeterministicContext) (_key : String) : Option String :=
  some "context is immutable"

/-! ## Primitive contract (`core/primitive_contracts.go`)

A `GovernancePrimitive` exposes `Version()` and `Evaluate(context)`.  The
optional `NamedPrimitive` capability (`Name()`) is modelled as an optional
field, per the design's tagged-optional-capability reading of the Go type
assertion. -/

structure Primitive where
  version : String
  name? : Option String := none
  evaluate : DeterministicContext → GoMap

/-- `getPrimitiveName`: the primitive's name when it has the naming
capability, else the positional placeholder. -/
def getPrimitiveName (p : Primitive) (index : Nat) : String :=
  match p.name? with
  | some n => n
  | none => "primitive_" ++ toString index

/-! ## FNV-1a 64-bit (`hash/fnv`), used for composite versions -/

def w64 (n : Nat) : Nat := n % 18446744073709551616

def fnv1a64Step (h : Nat) (b : Nat) : Nat := w64 (Nat.xor h b * 1099511628211)

def fnv1a64 (bs : List Nat) : Nat := bs.foldl fnv1a64Step 14695981039346656037

/-- The composite-version hash: FNV-1a over the concatenated sub-versions,
reduced mod 1000000 (`h.Sum64() % 1000000`). -/
def subVersionsHash (ps : List Primitive) : Nat :=
  fnv1a64 ((ps.map Primitive.version).flatMap strBytes) % 1000000

/-! ## Composition operators (`core/composition_operators.go`)

Each traced evaluator returns the result map of the Go `Evaluate` method
together with the 0-based indices of the sub-primitives whose `Evaluate`
was invoked, in invocation order. -/

/-- The loop body of `sequentialAndPrimitive.Evaluate`, from loop index `i`. -/
def seqAndLoop (ctx : DeterministicContext) : List Primitive → Nat → GoMap × List Nat
  | [], _ =>
      ([("valid", GoVal.vbool true),
        ("metadata", GoVal.vobj [("message", GoVal.vstr "All primitives passed sequentially")]),
        ("evidence", GoVal.varr [])], [])
  | p :: rest, i =>
      let result := p.evaluate ctx
      if asBoolTrue (goRead result "valid") then
        let (res, tr) := seqAndLoop ctx rest (i + 1)
        (res, i :: tr)
      else
        ([("valid", GoVal.vbool false),
          ("metadata", GoVal.vobj
            [("reason", GoVal.vstr ("Primitive " ++ getPrimitiveName p i ++ " failed")),
             ("failed_index", GoVal.vint i)]),
          ("evidence", GoVal.varr [])], [i])

/-- `sequentialAndPrimitive.Evaluate`, traced. -/
def sequentialAndEval (ps : List Primitive) (ctx : DeterministicContext) : GoMap × List Nat :=
  seqAndLoop ctx ps 0

/-- `PrimitiveComposer.SequentialAnd`: the composite primitive. -/
def SequentialAnd (ps : List Primitive) : Primitive :=
  { version := "sequential-and-" ++ toString (subVersionsHash ps),
    name? := none,
    evaluate := fun ctx => (sequentialAndEval ps ctx).1 }

/-- The shared results loop of `parallelAndPrimitive.Evaluate` and
`thresholdPrimitive.Evaluate` (the Go code repeats this loop verbatim in
both methods): `results[i] = ok && valid` for every sub-primitive, traced. -/
def allResultsLoop (ctx : DeterministicContext) : List Primitive → Nat → List Bool × List Nat
  | [], _ => ([], [])
  | p :: rest, i =>
      let v := asBoolTrue (goRead (p.evaluate ctx) "valid")
      let (vs, tr) := allResultsLoop ctx rest (i + 1)
      (v :: vs, i :: tr)

/-- The failed-primitive name collection loop of
`parallelAndPrimitive.Evaluate`. -/
def failedNamesLoop : List Primitive → List Bool → Nat → List String
  | p :: ps, r :: rs, i =>
      (if r then [] else [getPrimitiveName p i]) ++ failedNamesLoop ps rs (i + 1)
  | _, _, _ => []

/-- Go `fmt.Sprintf("%v", s)` for a string slice: `[a b c]`. -/
def goFmtStrSlice (l : List String) : String := "[" ++ goJoin " " l ++ "]"

/-- `parallelAndPrimitive.Evaluate`, traced. -/
def parallelAndEval (ps : List Primitive) (ctx : DeterministicContext) : GoMap × List Nat :=
  let (results, tr) := allResultsLoop ctx ps 0
  let allPassed := results.all id
  if allPassed then
    ([("valid", GoVal.vbool true),
      ("metadata", GoVal.vobj [("message", GoVal.vstr "All primitives passed in parallel")]),
      ("evidence", GoVal.varr [])], tr)
  else
    ([("valid", GoVal.vbool false),
      ("metadata", GoVal.vobj
        [("reason", GoVal.vstr
          ("Failed primitives: " ++ goFmtStrSlice (failedNamesLoop ps results 0)))]),
      ("evidence", GoVal.varr [])], tr)

/-- `PrimitiveComposer.ParallelAnd`: the composite primitive. -/
def ParallelAnd (ps : List Primitive) : Primitive :=
  { version := "parallel-and-" ++ toString (subVersionsHash ps),
    name? := none,
    evaluate := fun ctx => (parallelAndEval ps ctx).1 }

/-- `thresholdPrimitive.Evaluate`, traced.  `k` is a Go `int`. -/
def thresholdEval (ps : List Primitive) (k : Int) (ctx : DeterministicContext) :
    GoMap × List Nat :=
  let (results, tr) := allResultsLoop ctx ps 0
  let passedCount := results.count true
  if (passedCount : Int) ≥ k then
    ([("valid", GoVal.vbool true),
      ("metadata", GoVal.vobj [("message", GoVal.vstr
        (toString passedCount ++ " of " ++ toString ps.length ++ " primitives passed"))]),
      ("evidence", GoVal.varr [])], tr)
  else
    ([("valid", GoVal.vbool false),
      ("metadata", GoVal.vobj [("reason", GoVal.vstr
        ("Only " ++ toString passedCount ++ " of " ++ toString ps.length ++
         " primitives passed, need at least " ++ toString k))]),
      ("evidence", GoVal.varr [])], tr)

/-- `PrimitiveComposer.Threshold`: the composite primitive. -/
def Threshold (ps : List Primitive) (k : Int) : Primitive :=
  { version := "threshold-" ++ toString k ++ "-" ++ toString (subVersionsHash ps),
    name? := none,
    evaluate := fun ctx => (thresholdEval ps k ctx).1 }

/-! ## Proof generator (`ProofGenerator`) -/

/-- A cryptographically committed record of a governance decision. -/
structure GovernanceProof where
  primitiveVersions : List (String × String)
  evaluationOrder : List String
  decision : Bool
  signalCommitments : List String
  generatedAt : Int
deriving Repr

/-- `ProofGenerator.CommitSignal`: commit `valid`, `metadata` and, when the
key is present, `timestamp`, by `json.Marshal` followed by SHA-256 in
lowercase hex.  A marshal error degrades to a digest over the error text. -/
def CommitSignal (result : GoMap) : String :=
  let signalData : GoMap :=
    [("valid", goRead result "valid"), ("metadata", goRead result "metadata")] ++
    (if goHas result "timestamp" then [("timestamp", goRead result "timestamp")] else [])
  match jmVal (GoVal.vobj signalData) with
  | some data => sha256Hex data
  | none =>
      "error:" ++ sha256Hex (jsonErrText ((firstOpaque (GoVal.vobj signalData)).getD ""))

/-- `ProofGenerator.GenerateProofWithTime`: proof with explicit logical
time. -/
def GenerateProofWithTime (decision : Bool) (evaluatedPrimitives : List String)
    (signals : List GoMap) (primitiveVersions : List (String × String))
    (logicalTime : Int) : GovernanceProof :=
  { primitiveVersions := primitiveVersions,
    evaluationOrder := evaluatedPrimitives,
    decision := decision,
    signalCommitments := signals.map CommitSignal,
    generatedAt := logicalTime }

/-- `ProofGenerator.GenerateProof`: delegates to `GenerateProofWithTime`
with the wall clock; the ambient `time.Now().UnixNano()` reading is passed
in as `now`. -/
def GenerateProof (now : Int) (decision : Bool) (evaluatedPrimitives : List String)
    (signals : List GoMap) (primitiveVersions : List (String × String)) : GovernanceProof :=
  GenerateProofWithTime decision evaluatedPrimitives signals primitiveVersions now

/-! ## Governance engine (`GovernanceEngine`) -/

/-- The engine registry: `(id, primitive)` pairs in registration order.
`RegisterPrimitive` keeps ids unique and non-empty, so the `versions` map
is the association list of ids to registered versions. -/
structure GovernanceEngine where
  registry : List (String × Primitive)

/-- The `versions` map as populated by `RegisterPrimitive`. -/
def engineVersions (ge : GovernanceEngine) : List (String × String) :=
  ge.registry.map (fun e => (e.1, e.2.version))

/-- Go map read on the `versions` map (zero value `""` when absent). -/
def lookupVersion : List (String × String) → String → String
  | [], _ => ""
  | (k, v) :: rest, id => if k = id then v else lookupVersion rest id

/-- `RegisterPrimitive`: rejects a nil primitive, an empty id and a
duplicate id; otherwise appends to the registry. -/
def RegisterPrimitive (ge : GovernanceEngine) (id : String) (p : Option Primitive) :
    GovernanceEngine × Option String :=
  match p with
  | none => (ge, some "primitive cannot be nil")
  | some p =>
      if id = "" then (ge, some "primitive ID cannot be empty")
      else if (ge.registry.map Prod.fst).contains id then
        (ge, some ("primitive with ID '" ++ id ++ "' already registered"))
      else ({ registry := ge.registry ++ [(id, p)] }, none)

/-- The result of a governance evaluation. -/
structure GovernanceDecision where
  permitted : Bool
  signals : List GoMap
  failureReasons : List String
  proof : GovernanceProof
deriving Repr

/-- The signal record the engine builds for one primitive (Go map reads of
absent keys yield `nil`). -/
def mkSignal (id version : String) (result : GoMap) : GoMap :=
  [("primitive_id", GoVal.vstr id), ("version", GoVal.vstr version),
   ("valid", goRead result "valid"), ("metadata", goRead result "metadata"),
   ("evidence", goRead result "evidence")]

/-- The failure reason the engine appends: primitive id, plus the
primitive's own `metadata.reason` when metadata is a map holding a string
`reason`. -/
def engineFailReason (id : String) (result : GoMap) : String :=
  match goRead result "metadata" with
  | GoVal.vobj meta =>
      match goRead meta "reason" with
      | GoVal.vstr r => "Primitive '" ++ id ++ "' failed: " ++ r
      | _ => "Primitive '" ++ id ++ "' failed"
  | _ => "Primitive '" ++ id ++ "' failed"

/-- The evaluation loop shared verbatim by `Evaluate` and
`EvaluateWithLogicalTime`: signals, failure reasons, permitted flag, and
the trace of invoked primitive indices.  It records a signal for every
primitive it invokes and breaks at the first result that is not the
boolean `true` under `valid` (fail-closed early exit). -/
def engineLoop (versions : List (String × String)) (ctx : DeterministicContext) :
    List (String × Primitive) → Nat → List GoMap × List String × Bool × List Nat
  | [], _ => ([], [], true, [])
  | (id, p) :: rest, i =>
      let result := p.evaluate ctx
      let signal := mkSignal id (lookupVersion versions id) result
      if asBoolTrue (goRead result "valid") then
        let (sigs, reasons, perm, tr) := engineLoop versions ctx rest (i + 1)
        (signal :: sigs, reasons, perm, i :: tr)
      else
        ([signal], [engineFailReason id result], false, [i])

/-- `GovernanceEngine.Evaluate`, traced.  `now` is the ambient
`time.Now().UnixNano()` that `GenerateProof` reads. -/
def engineEvaluateTraced (ge : GovernanceEngine) (ctx : DeterministicContext) (now : Int) :
    GovernanceDecision × List Nat :=
  let versions := engineVersions ge
  let (signals, reasons, permitted, trace) := engineLoop versions ctx ge.registry 0
  let evaluatedIDs := signals.map (fun sig => asString (goRead sig "primitive_id"))
  ({ permitted := permitted, signals := signals, failureReasons := reasons,
     proof := GenerateProof now permitted evaluatedIDs signals versions }, trace)

/-- `GovernanceEngine.Evaluate`. -/
def engineEvaluate (ge : GovernanceEngine) (ctx : DeterministicContext) (now : Int) :
    GovernanceDecision :=
  (engineEvaluateTraced ge ctx now).1

/-- `GovernanceEngine.EvaluateWithLogicalTime`: the identical loop, with
`GenerateProofWithTime` at the end. -/
def engineEvaluateWithLogicalTime (ge : GovernanceEngine) (ctx : DeterministicContext)
    (logicalTime : Int) : GovernanceDecision :=
  let versions := engineVersions ge
  let (signals, reasons, permitted, _) := engineLoop versions ctx ge.registry 0
  let evaluatedIDs := signals.map (fun sig => asString (goRead sig "primitive_id"))
  { permitted := permitted, signals := signals, failureReasons := reasons,
    proof := GenerateProofWithTime permitted evaluatedIDs signals versions logicalTime }

/-! ## Determinism enforcer (`DeterminismEnforcer`)

The Go lint compiles fixed regular expressions; they use only literal
characters, `\s+`, `\s*`, `\w+` and `\b`, so the matcher below covers
exactly those constructs, with full backtracking and Go (RE2) character
classes: `\s = [\t\n\f\r ]`, `\w = [0-9A-Za-z_]`. -/

/-- One regex token of the lint patterns.  `word0` (`\w*`) never appears
in a source pattern; the matcher rewrites `\s+` to one-space-then-`\s*`
and `\w+` to one-word-char-then-`\w*`, so it needs the starred forms
only. -/
inductive RTok : Type where
  | ch (c : Char)
  | ws1
  | ws0
  | word1
  | word0
  | wb
deriving Repr

def isReSpace (c : Char) : Bool :=
  c = '\t' || c = '\n' || c = '\x0c' || c = '\r' || c = ' '

def isReWord (c : Char) : Bool := c.isAlphanum || c = '_'

def isWordOpt : Option Char → Bool
  | some c => isReWord c
  | none => false

/-- A word boundary sits between a word character and a non-word character
or the string edge. -/
def atBoundary (prev next : Option Char) : Bool := isWordOpt prev != isWordOpt next

/-- Full-backtracking anchored match, structurally recursive on a fuel
bound.  Every recursive call consumes a character or discharges a token,
so `ts.length + cs.length + 1` fuel always suffices; the fuel-0 base
accepts exactly the empty pattern. -/
def matchRun : Nat → List RTok → Option Char → List Char → Bool
  | 0, ts, _, _ => ts.isEmpty
  | fuel + 1, ts, prev, cs =>
      match ts with
      | [] => true
      | RTok.ch a :: ts' =>
          match cs with
          | [] => false
          | c :: cs' => a == c && matchRun fuel ts' (some c) cs'
      | RTok.wb :: ts' => atBoundary prev cs.head? && matchRun fuel ts' prev cs
      | RTok.ws0 :: ts' =>
          matchRun fuel ts' prev cs ||
            (match cs with
             | [] => false
             | c :: cs' => isReSpace c && matchRun fuel (RTok.ws0 :: ts') (some c) cs')
      | RTok.ws1 :: ts' =>
          (match cs with
           | [] => false
           | c :: cs' => isReSpace c && matchRun fuel (RTok.ws0 :: ts') (some c) cs')
      | RTok.word1 :: ts' =>
          (match cs with
           | [] => false
           | c :: cs' => isReWord c && matchRun fuel (RTok.word0 :: ts') (some c) cs')
      | RTok.word0 :: ts' =>
          matchRun fuel ts' prev cs ||
            (match cs with
             | [] => false
             | c :: cs' => isReWord c && matchRun fuel (RTok.word0 :: ts') (some c) cs')

/-- Match a token list against the start of `cs` (`prev` is the character
just before `cs`, for `\b`). -/
def matchToks (ts : List RTok) (prev : Option Char) (cs : List Char) : Bool :=
  matchRun (ts.length + cs.length + 1) ts prev cs

/-- Unanchored search (`regexp.MatchString`): match at some position. -/
def searchToks (ts : List RTok) (prev : Option Char) (cs : List Char) : Bool :=
  matchToks ts prev cs ||
    match cs with
    | [] => false
    | c :: cs' => searchToks ts (some c) cs'

/-- `re.MatchString(s)` for a lint pattern. -/
def reMatch (pat : List RTok) (s : String) : Bool := searchToks pat none s.data

/-- Literal characters of a pattern (`regexp.QuoteMeta` output: the banned
names contain no metacharacters beyond `.`, which QuoteMeta escapes back to
a literal dot). -/
def litToks (s : String) : List RTok := s.data.map RTok.ch

/-- `BannedImports`. -/
def BannedImports : List String :=
  ["time", "datetime", "random", "os", "sys",
   "socket", "urllib", "requests", "subprocess",
   "threading", "multiprocessing", "asyncio"]

/-- `BannedFunctions`. -/
def BannedFunctions : List String :=
  ["time.Now", "time.Since", "time.Until", "time.Sleep",
   "rand.Int", "rand.Float", "rand.Intn", "rand.Read",
   "os.Getenv", "os.Setenv", "os.Open", "os.Create",
   "os.ReadFile", "os.WriteFile", "os.Remove",
   "net.Dial", "net.Listen", "http.Get", "http.Post",
   "exec.Command", "fmt.Print", "fmt.Println",
   "log.Print", "log.Println", "log.Printf"]

/-- The three patterns checked per banned import:
`import\s+"X"`, `import\s+X\b`, `from\s+X\s+import`. -/
def importPatterns (imp : String) : List (List RTok) :=
  [litToks "import" ++ [RTok.ws1] ++ litToks ("\"" ++ imp ++ "\""),
   litToks "import" ++ [RTok.ws1] ++ litToks imp ++ [RTok.wb],
   litToks "from" ++ [RTok.ws1] ++ litToks imp ++ [RTok.ws1] ++ litToks "import"]

/-- The pattern checked per banned function: `QuoteMeta(fn)\s*\(`. -/
def fnCallPattern (fn : String) : List RTok := litToks fn ++ [RTok.ws0, RTok.ch '(']

/-- The global-mutable-state declaration patterns:
`var\s+\w+\s*=\s*make\s*\(`, `var\s+\w+\s*=\s*\[\]`, `var\s+\w+\s*=\s*map\s*\[`. -/
def globalMutablePatterns : List (List RTok) :=
  [litToks "var" ++ [RTok.ws1, RTok.word1, RTok.ws0, RTok.ch '=', RTok.ws0] ++
     litToks "make" ++ [RTok.ws0, RTok.ch '('],
   litToks "var" ++ [RTok.ws1, RTok.word1, RTok.ws0, RTok.ch '=', RTok.ws0] ++ litToks "[]",
   litToks "var" ++ [RTok.ws1, RTok.word1, RTok.ws0, RTok.ch '=', RTok.ws0] ++
     litToks "map" ++ [RTok.ws0, RTok.ch '[']]

/-- The banned-import violation messages collected for `src`, one per
matching (import, pattern) pair, in list order. -/
def importViolations (src : String) : List String :=
  BannedImports.flatMap (fun imp =>
    (importPatterns imp).flatMap (fun pat =>
      if reMatch pat src then ["Banned import '" ++ imp ++ "' found"] else []))

/-- The banned-function violation messages collected for `src`. -/
def functionViolations (src : String) : List String :=
  BannedFunctions.flatMap (fun fn =>
    if reMatch (fnCallPattern fn) src then ["Banned function '" ++ fn ++ "' found"] else [])

/-- The `strings.Contains(src, "__import__")` check. -/
def dunderImportViolations (src : String) : List String :=
  if hasSubS "__import__" src then
    ["Direct __import__ call detected - use import statements instead"] else []

/-- The global-mutable-state check: one violation on the first matching
pattern (the Go loop breaks after appending once). -/
def globalViolations (src : String) : List String :=
  if globalMutablePatterns.any (fun pat => reMatch pat src) then
    ["Potential global mutable state detected"] else []

/-- Go `unicode.IsSpace` (the class `strings.TrimSpace` trims). -/
def isGoSpace (c : Char) : Bool :=
  let n := c.toNat
  (9 ≤ n && n ≤ 13) || n = 32 || n = 133 || n = 160 || n = 5760 ||
  (8192 ≤ n && n ≤ 8202) || n = 8232 || n = 8233 || n = 8239 || n = 8287 || n = 12288

/-- All violations of `src`, in the order the Go code collects them. -/
def allViolations (src : String) : List String :=
  importViolations src ++ functionViolations src ++
  dunderImportViolations src ++ globalViolations src

/-- `DeterminismEnforcer.ValidateDeterministic`: `some msg` is the
`NonDeterministicPrimitiveError`, `none` is success.  The whitespace-only
guard is `strings.TrimSpace(src) == ""`. -/
def ValidateDeterministic (sourceCode : String) : Option String :=
  if sourceCode.data.all isGoSpace then some "empty source code"
  else
    let violations := allViolations sourceCode
    if violations.isEmpty then none else some (goJoin "; " violations)

/-- `DeterminismEnforcer.ValidatePrimitiveContract`. -/
def ValidatePrimitiveContract (p : Option Primitive) : Option String :=
  match p with
  | none => some "primitive cannot be nil"
  | some p =>
      if p.version = "" then some "primitive must have non-empty version" else none

/-! ## Compliance checker (`ComplianceChecker`) -/

structure ComplianceViolation where
  primitive : String
  requirement : String
  details : String
deriving Repr, DecidableEq

structure ComplianceReport where
  compliant : Bool
  violations : List ComplianceViolation
  checked : List String
deriving Repr

/-- `ComplianceChecker.CheckPrimitive`: a nil primitive is a hard error
with no report; otherwise a report is always produced, collecting a
`version` violation when the version string is empty and an
`evaluate_contract` violation when evaluation against an empty
zero-logical-time context lacks the `valid` key. -/
def CheckPrimitive (p : Option Primitive) : Except String ComplianceReport :=
  match p with
  | none => Except.error "primitive cannot be nil"
  | some p =>
      let name := match p.name? with | some n => n | none => "unknown"
      let versionViolations : List ComplianceViolation :=
        if p.version = "" then
          [{ primitive := name, requirement := "version",
             details := "Version() must return non-empty string" }]
        else []
      let testCtx := NewDeterministicContext [] 0
      let result := p.evaluate testCtx
      let evalViolations : List ComplianceViolation :=
        if goHas result "valid" then []
        else
          [{ primitive := name, requirement := "evaluate_contract",
             details := "Evaluate() must return map with 'valid' key" }]
      let violations := versionViolations ++ evalViolations
      Except.ok { compliant := violations.isEmpty, violations := violations,
                  checked := ["version", "evaluate_contract"] }

/-! ## Derived definitions used by the verification statements -/

instance : Inhabited Primitive := ⟨{ version := "", evaluate := fun _ => [] }⟩

/-- Whether one primitive evaluation passes the fail-closed truth test. -/
def evalValid (ctx : DeterministicContext) (p : Primitive) : Bool :=
  asBoolTrue (goRead (p.evaluate ctx) "valid")

/-- The spec-side list of failed-primitive names, in input order: a filter
over the indexed primitives, independent of the collection loop. -/
def failedNamesSpec (ps : List Primitive) (ctx : DeterministicContext) : List String :=
  ps.enum.filterMap (fun pr =>
    if evalValid ctx pr.2 then none else some (getPrimitiveName pr.2 pr.1))

/-- The failure result map of `sequentialAndPrimitive.Evaluate` for the
primitive at absolute index `idx`. -/
def seqFailMap (p : Primitive) (idx : Nat) : GoMap :=
  [("valid", GoVal.vbool false),
   ("metadata", GoVal.vobj
     [("reason", GoVal.vstr ("Primitive " ++ getPrimitiveName p idx ++ " failed")),
      ("failed_index", GoVal.vint idx)]),
   ("evidence", GoVal.varr [])]

/-- The success result map of `sequentialAndPrimitive.Evaluate`. -/
def seqPassMap : GoMap :=
  [("valid", GoVal.vbool true),
   ("metadata", GoVal.vobj [("message", GoVal.vstr "All primitives passed sequentially")]),
   ("evidence", GoVal.varr [])]

/-- Whether `src` matches any banned-import pattern, banned-function-call
pattern, the dynamic-import token, or a global-mutable-state declaration
pattern — the exact match conditions `ValidateDeterministic` collects
violations from. -/
def matchesAnyBanned (src : String) : Bool :=
  BannedImports.any (fun imp => (importPatterns imp).any (fun pat => reMatch pat src)) ||
  BannedFunctions.any (fun fn => reMatch (fnCallPattern fn) src) ||
  hasSubS "__import__" src ||
  globalMutablePatterns.any (fun pat => reMatch pat src)

/-! ## Concrete test fixtures -/

/-- A contract-conforming primitive that always passes. -/
def passPrimitive : Primitive :=
  { version := "1.0", name? := some "pass",
    evaluate := fun _ =>
      [("valid", GoVal.vbool true), ("metadata", GoVal.vobj []), ("evidence", GoVal.varr [])] }

/-- A contract-conforming primitive that always fails with a reason. -/
def denyPrimitive : Primitive :=
  { version := "2.0", name? := some "deny",
    evaluate := fun _ =>
      [("valid", GoVal.vbool false),
       ("metadata", GoVal.vobj [("reason", GoVal.vstr "nope")]),
       ("evidence", GoVal.varr [])] }

/-- A primitive with an empty version string. -/
def badVersionPrimitive : Primitive :=
  { version := "", name? := none, evaluate := fun _ => [("valid", GoVal.vbool true)] }

/-- An empty zero-time context. -/
def emptyCtx : DeterministicContext := NewDeterministicContext [] 0

/-! ## Helper lemmas -/

theorem strData_append (a b : String) : (a ++ b).data = a.data ++ b.data := rfl

theorem startsWithB_extend (n : List Char) :
    ∀ s t : List Char, startsWithB n s = true → startsWithB n (s ++ t) = true := by
  induction n with
  | nil => intro s t _; rfl
  | cons a as_ ih =>
      intro s t h
      cases s with
      | nil => simp [startsWithB] at h
      | cons c cs =>
          simp only [startsWithB, Bool.and_eq_true, beq_iff_eq] at h ⊢
          exact ⟨h.1, ih cs t h.2⟩

theorem startsWithB_append (n t : List Char) : startsWithB n (n ++ t) = true := by
  induction n with
  | nil => rfl
  | cons a as_ ih => simp [startsWithB, ih]

theorem hasSub_nil_needle (t : List Char) : hasSub [] t = true := by
  cases t <;> simp [hasSub, startsWithB]

theorem hasSub_append_right (n s t : List Char) (h : hasSub n t = true) :
    hasSub n (s ++ t) = true := by
  induction s with
  | nil => simpa using h
  | cons c cs ih => simp [hasSub, ih]

theorem hasSub_of_startsWithB (n s : List Char) (h : startsWithB n s = true) :
    hasSub n s = true := by
  cases s with
  | nil =>
      cases n with
      | nil => rfl
      | cons a as_ => simp [startsWithB] at h
  | cons c cs => simp [hasSub, h]

theorem hasSub_append_left (n s t : List Char) (h : hasSub n s = true) :
    hasSub n (s ++ t) = true := by
  induction s with
  | nil =>
      cases n with
      | nil => exact hasSub_nil_needle t
      | cons a as_ => simp [hasSub, startsWithB] at h
  | cons c cs ih =>
      simp only [hasSub, Bool.or_eq_true] at h
      cases h with
      | inl h => exact hasSub_of_startsWithB _ _ (by simpa using startsWithB_extend n (c :: cs) t h)
      | inr h => simp [hasSub, ih h]

theorem startsWithB_refl (n : List Char) : startsWithB n n = true := by
  have := startsWithB_append n []
  simpa using this

theorem hasSubS_mid (a n b : String) : hasSubS n (a ++ n ++ b) = true := by
  unfold hasSubS
  rw [strData_append, strData_append]
  exact hasSub_append_left _ _ _
    (hasSub_append_right _ _ _ (hasSub_of_startsWithB _ _ (startsWithB_refl n.data)))

theorem hasSubS_goJoin (sep : String) (l : List String) (v : String) (hv : v ∈ l)
    (n : String) (h : hasSubS n v = true) : hasSubS n (goJoin sep l) = true := by
  induction l with
  | nil => simp at hv
  | cons x xs ih =>
      cases xs with
      | nil =>
          simp only [List.mem_singleton] at hv
          simpa [goJoin, hv] using h
      | cons y ys =>
          rcases List.mem_cons.mp hv with hv | hv
          · subst hv
            show hasSub n.data ((v ++ sep ++ goJoin sep (y :: ys)).data) = true
            rw [strData_append, strData_append]
            exact hasSub_append_left _ _ _ (hasSub_append_left _ _ _ h)
          · show hasSub n.data ((x ++ sep ++ goJoin sep (y :: ys)).data) = true
            rw [strData_append]
            exact hasSub_append_right _ _ _ (ih hv)

theorem matchRun_nil (fuel : Nat) (prev : Option Char) (cs : List Char) :
    matchRun fuel [] prev cs = true := by
  cases fuel <;> rfl

theorem matchRun_lit_ws0_ch (c : Char) (n : List Char) :
    ∀ (fuel : Nat) (cs : List Char) (prev : Option Char),
      startsWithB (n ++ [c]) cs = true → n.length + 2 ≤ fuel →
      matchRun fuel (n.map RTok.ch ++ [RTok.ws0, RTok.ch c]) prev cs = true := by
  induction n with
  | nil =>
      intro fuel cs prev h hf
      cases cs with
      | nil => simp [startsWithB] at h
      | cons d cs' =>
          simp only [List.nil_append, startsWithB, Bool.and_eq_true, beq_iff_eq] at h
          obtain ⟨f, rfl⟩ : ∃ f, fuel = f + 1 := ⟨fuel - 1, by omega⟩
          obtain ⟨f2, rfl⟩ : ∃ f2, f = f2 + 1 := ⟨f - 1, by omega⟩
          simp [matchRun, h.1, matchRun_nil]
  | cons a as_ ih =>
      intro fuel cs prev h hf
      cases cs with
      | nil => simp [startsWithB] at h
      | cons d cs' =>
          simp only [List.cons_append, startsWithB, Bool.and_eq_true, beq_iff_eq] at h
          obtain ⟨f, rfl⟩ : ∃ f, fuel = f + 1 := ⟨fuel - 1, by omega⟩
          simp only [List.map_cons, List.cons_append, matchRun]
          have hlen : as_.length + 2 ≤ f := by
            simp only [List.length_cons] at hf
            omega
          simp [h.1, ih f cs' (some d) h.2 hlen]

theorem searchToks_of_hasSub (ts : List RTok) (m : List Char)
    (hm : ∀ (cs : List Char) (prev : Option Char),
      startsWithB m cs = true → matchToks ts prev cs = true) :
    ∀ (cs : List Char) (prev : Option Char), hasSub m cs = true →
      searchToks ts prev cs = true := by
  intro cs
  induction cs with
  | nil =>
      intro prev h
      unfold searchToks
      simp [hm [] prev (by simpa [hasSub] using h)]
  | cons c cs' ih =>
      intro prev h
      simp only [hasSub, Bool.or_eq_true] at h
      unfold searchToks
      cases h with
      | inl h => simp [hm (c :: cs') prev h]
      | inr h => simp [ih (some c) h]

theorem reMatch_fnCall_of_hasSub (fn src : String)
    (h : hasSub (fn.data ++ ['(']) src.data = true) :
    reMatch (fnCallPattern fn) src = true := by
  refine searchToks_of_hasSub _ _ (fun cs prev hs => ?_) src.data none h
  unfold fnCallPattern litToks matchToks
  apply matchRun_lit_ws0_ch '(' fn.data _ cs prev hs
  simp
  omega

theorem flatMap_guard_nil {α β : Type} (l : List α) (p : α → Bool) (f : α → List β)
    (h : ∀ x ∈ l, p x = false) : (l.flatMap (fun x => if p x then f x else [])) = [] := by
  induction l with
  | nil => rfl
  | cons a as_ ih =>
      simp only [List.flatMap_cons, h a (by simp), if_false, List.nil_append]
      exact ih (fun x hx => h x (by simp [hx]))

theorem flatMap_nil_of {α β : Type} (l : List α) (f : α → List β)
    (h : ∀ x ∈ l, f x = []) : l.flatMap f = [] := by
  induction l with
  | nil => rfl
  | cons a as_ ih =>
      simp only [List.flatMap_cons, h a (by simp), List.nil_append]
      exact ih (fun x hx => h x (by simp [hx]))

theorem engineLoop_spec (versions : List (String × String)) (ctx : DeterministicContext)
    (l : List (String × Primitive)) (i : Nat) :
    (engineLoop versions ctx l i).1.length ≤ l.length ∧
    ((engineLoop versions ctx l i).1.length < l.length →
      (engineLoop versions ctx l i).2.2.1 = false) := by
  induction l generalizing i with
  | nil => simp [engineLoop]
  | cons e rest ih =>
      obtain ⟨id, p⟩ := e
      by_cases hv : asBoolTrue (goRead (p.evaluate ctx) "valid") = true
      · have h1 := (ih (i + 1)).1
        have h2 := (ih (i + 1)).2
        simp only [engineLoop, hv, if_true, List.length_cons]
        constructor
        · omega
        · intro hlt
          exact h2 (by omega)
      · simp only [Bool.not_eq_true] at hv
        simp only [engineLoop, hv, Bool.false_eq_true, if_false, List.length_cons,
          List.length_nil]
        constructor
        · omega
        · intro _; trivial

theorem allResultsLoop_spec (ctx : DeterministicContext) (l : List Primitive) (i : Nat) :
    allResultsLoop ctx l i = (l.map (evalValid ctx), List.range' i l.length) := by
  induction l generalizing i with
  | nil => simp [allResultsLoop, List.range']
  | cons p rest ih =>
      simp [allResultsLoop, ih (i + 1), List.range', evalValid]

theorem failedNamesLoop_spec (ctx : DeterministicContext) (l : List Primitive) (i : Nat) :
    failedNamesLoop l (l.map (evalValid ctx)) i =
      (List.enumFrom i l).filterMap (fun pr =>
        if evalValid ctx pr.2 then none else some (getPrimitiveName pr.2 pr.1)) := by
  induction l generalizing i with
  | nil => simp [failedNamesLoop]
  | cons p rest ih =>
      by_cases hv : evalValid ctx p = true
      · simp [failedNamesLoop, List.enumFrom, hv, ih (i + 1)]
      · simp only [Bool.not_eq_true] at hv
        simp [failedNamesLoop, List.enumFrom, hv, ih (i + 1)]

theorem seqAndLoop_fail (ctx : DeterministicContext) (l : List Primitive) :
    ∀ (b m : Nat), m < l.length →
      (∀ j, j < m → evalValid ctx (l.getD j default) = true) →
      evalValid ctx (l.getD m default) = false →
      seqAndLoop ctx l b = (seqFailMap (l.getD m default) (b + m), List.range' b (m + 1)) := by
  induction l with
  | nil => intro b m hm; simp at hm
  | cons p rest ih =>
      intro b m hm hb hf
      cases m with
      | zero =>
          simp only [List.getD, List.get?, Option.getD] at hf
          simp [seqAndLoop, evalValid] at hf
          simp [seqAndLoop, hf, seqFailMap, List.range', evalValid]
      | succ m' =>
          have hp : evalValid ctx p = true := by
            have := hb 0 (Nat.succ_pos m')
            simpa using this
          have hrest := ih (b + 1) m' (by simpa using hm)
            (fun j hj => by simpa using hb (j + 1) (Nat.succ_lt_succ hj))
            (by simpa using hf)
          simp only [evalValid] at hp
          simp only [seqAndLoop, hp, if_true, hrest]
          have harith : b + 1 + m' = b + (m' + 1) := by omega
          simp [List.range', List.getD_cons_succ, harith]

theorem engineFailReason_shape (id : String) (result : GoMap) :
    ∃ t : String, engineFailReason id result = "Primitive '" ++ id ++ t := by
  unfold engineFailReason
  split
  · split
    · exact ⟨"' failed: " ++ _, String.append_assoc _ _ _⟩
    · exact ⟨"' failed", rfl⟩
  · exact ⟨"' failed", rfl⟩

theorem hasSubS_engineFailReason (id : String) (result : GoMap) :
    hasSubS id (engineFailReason id result) = true := by
  obtain ⟨t, ht⟩ := engineFailReason_shape id result
  rw [ht]
  unfold hasSubS
  rw [strData_append, strData_append]
  exact hasSub_append_left _ _ _
    (hasSub_append_right _ _ _ (hasSub_of_startsWithB _ _ (startsWithB_refl id.data)))

theorem seqAndLoop_pass (ctx : DeterministicContext) (l : List Primitive) :
    ∀ b : Nat, (∀ j, j < l.length → evalValid ctx (l.getD j default) = true) →
      seqAndLoop ctx l b = (seqPassMap, List.range' b l.length) := by
  induction l with
  | nil => intro b _; simp [seqAndLoop, seqPassMap, List.range']
  | cons p rest ih =>
      intro b hall
      have hp : evalValid ctx p = true := by simpa using hall 0 (by simp)
      have hrest := ih (b + 1) (fun j hj => by
        simpa using hall (j + 1) (by simpa using Nat.succ_lt_succ hj))
      simp only [evalValid] at hp
      simp [seqAndLoop, hp, hrest, List.range']

/-! ## Claim theorems -/

/-- C9: on an engine with zero registered primitives, `Evaluate` returns
`permitted=true`, empty `signals`, empty `failure_reasons`, and a proof
with empty `evaluation_order` and empty `signal_commitments`: an empty
registry admits every action. -/
theorem engine_empty_registry_permits (ctx : DeterministicContext) (now : Int) :
    (engineEvaluateTraced ⟨[]⟩ ctx now).1.permitted = true ∧
    (engineEvaluateTraced ⟨[]⟩ ctx now).1.signals = [] ∧
    (engineEvaluateTraced ⟨[]⟩ ctx now).1.failureReasons = [] ∧
    (engineEvaluateTraced ⟨[]⟩ ctx now).1.proof.evaluationOrder = [] ∧
    (engineEvaluateTraced ⟨[]⟩ ctx now).1.proof.signalCommitments = [] :=
  ⟨rfl, rfl, rfl, rfl, rfl⟩

/-- C2 (counterexample): a single always-failing primitive yields one
signal (equal to the registry size, not strictly below it) while
`permitted` is false, refuting the claimed "strictly less iff not
permitted" equivalence. -/
theorem engine_signals_iff_counterexample :
    (engineEvaluate ⟨[("p1", denyPrimitive)]⟩ emptyCtx 0).signals.length = 1 ∧
    (engineEvaluate ⟨[("p1", denyPrimitive)]⟩ emptyCtx 0).permitted = false ∧
    ¬((engineEvaluate ⟨[("p1", denyPrimitive)]⟩ emptyCtx 0).signals.length < 1 ↔
      (engineEvaluate ⟨[("p1", denyPrimitive)]⟩ emptyCtx 0).permitted = false) := by
  refine ⟨rfl, rfl, ?_⟩
  intro h
  exact absurd (h.mpr rfl) (by decide)

/-- C2 (amended): for every engine state and context, the number of
signals is at most the number of registered primitives, and strictly
fewer signals than registered primitives implies `permitted=false` (the
converse fails when the last registered primitive is the one that
fails). -/
theorem engine_signals_bound (ge : GovernanceEngine) (ctx : DeterministicContext) (now : Int) :
    (engineEvaluate ge ctx now).signals.length ≤ ge.registry.length ∧
    ((engineEvaluate ge ctx now).signals.length < ge.registry.length →
      (engineEvaluate ge ctx now).permitted = false) := by
  have h := engineLoop_spec (engineVersions ge) ctx ge.registry 0
  rcases hE : engineLoop (engineVersions ge) ctx ge.registry 0 with ⟨sigs, reasons, perm, tr⟩
  rw [hE] at h
  simp only [engineEvaluate, engineEvaluateTraced, hE]
  simpa using h

theorem engine_signals_bound_witness :
    (engineEvaluate ⟨[("p1", denyPrimitive), ("p2", passPrimitive)]⟩ emptyCtx 0).signals.length ≤ 2 ∧
    (engineEvaluate ⟨[("p1", denyPrimitive), ("p2", passPrimitive)]⟩ emptyCtx 0).permitted = false := by
  refine ⟨?_, ?_⟩
  · exact (engine_signals_bound ⟨[("p1", denyPrimitive), ("p2", passPrimitive)]⟩ emptyCtx 0).1
  · exact (engine_signals_bound ⟨[("p1", denyPrimitive), ("p2", passPrimitive)]⟩ emptyCtx 0).2
      (by decide)

/-- C1: on an engine with three primitives registered in order, where the
first passes, the second fails and the third passes, `Evaluate` denies,
records exactly 2 signals, exactly 1 failure reason containing the second
id, and never invokes the third primitive (the trace is `[0, 1]`). -/
theorem engine_fail_closed_P1P2P3 (id1 id2 id3 : String) (p1 p2 p3 : Primitive)
    (ctx : DeterministicContext) (now : Int)
    (h1 : evalValid ctx p1 = true) (h2 : evalValid ctx p2 = false)
    (h3 : evalValid ctx p3 = true) :
    (engineEvaluateTraced ⟨[(id1, p1), (id2, p2), (id3, p3)]⟩ ctx now).1.permitted = false ∧
    (engineEvaluateTraced ⟨[(id1, p1), (id2, p2), (id3, p3)]⟩ ctx now).1.signals.length = 2 ∧
    (engineEvaluateTraced ⟨[(id1, p1), (id2, p2), (id3, p3)]⟩ ctx now).1.failureReasons.length = 1 ∧
    (engineEvaluateTraced ⟨[(id1, p1), (id2, p2), (id3, p3)]⟩ ctx now).1.failureReasons.all
      (fun r => hasSubS id2 r) = true ∧
    (engineEvaluateTraced ⟨[(id1, p1), (id2, p2), (id3, p3)]⟩ ctx now).2 = [0, 1] ∧
    (engineEvaluateTraced ⟨[(id1, p1), (id2, p2), (id3, p3)]⟩ ctx now).2.contains 2 = false := by
  unfold evalValid at h1 h2
  simp only [engineEvaluateTraced, engineLoop, h1, h2, Bool.false_eq_true, if_true, if_false]
  simp [hasSubS_engineFailReason]

theorem engine_fail_closed_P1P2P3_witness :
    (engineEvaluateTraced ⟨[("a", passPrimitive), ("b", denyPrimitive), ("c", passPrimitive)]⟩
      emptyCtx 0).1.permitted = false ∧
    (engineEvaluateTraced ⟨[("a", passPrimitive), ("b", denyPrimitive), ("c", passPrimitive)]⟩
      emptyCtx 0).1.signals.length = 2 ∧
    (engineEvaluateTraced ⟨[("a", passPrimitive), ("b", denyPrimitive), ("c", passPrimitive)]⟩
      emptyCtx 0).1.failureReasons.length = 1 ∧
    (engineEvaluateTraced ⟨[("a", passPrimitive), ("b", denyPrimitive), ("c", passPrimitive)]⟩
      emptyCtx 0).1.failureReasons.all (fun r => hasSubS "b" r) = true ∧
    (engineEvaluateTraced ⟨[("a", passPrimitive), ("b", denyPrimitive), ("c", passPrimitive)]⟩
      emptyCtx 0).2 = [0, 1] ∧
    (engineEvaluateTraced ⟨[("a", passPrimitive), ("b", denyPrimitive), ("c", passPrimitive)]⟩
      emptyCtx 0).2.contains 2 = false :=
  engine_fail_closed_P1P2P3 "a" "b" "c" passPrimitive denyPrimitive passPrimitive emptyCtx 0
    rfl rfl rfl

/-- C4: for every primitive sequence and every `k` in `[0, N]`, the
`Threshold(primitives, k)` composite invokes every primitive exactly once
(trace = `range N`, no short-circuit) and is valid iff at least `k`
primitive results are valid. -/
theorem threshold_count (ps : List Primitive) (k : Int) (ctx : DeterministicContext)
    (hk0 : 0 ≤ k) (hkN : k ≤ (ps.length : Int)) :
    (thresholdEval ps k ctx).2 = List.range ps.length ∧
    (asBoolTrue (goRead (thresholdEval ps k ctx).1 "valid") = true ↔
      (((ps.map (evalValid ctx)).count true : Int) ≥ k)) := by
  unfold thresholdEval
  rw [allResultsLoop_spec]
  by_cases h : (((ps.map (evalValid ctx)).count true : Int) ≥ k)
  · exact ⟨by simp [h, List.range_eq_range'], by simp [h, goRead, asBoolTrue]⟩
  · exact ⟨by simp [h, List.range_eq_range'], by simp [h, goRead, asBoolTrue]⟩

theorem threshold_count_witness :
    0 ≤ (2 : Int) ∧ (2 : Int) ≤ (([passPrimitive, denyPrimitive, passPrimitive] :
      List Primitive).length : Int) ∧
    ((thresholdEval [passPrimitive, denyPrimitive, passPrimitive] 2 emptyCtx).2 =
      List.range 3 ∧
     (asBoolTrue (goRead (thresholdEval [passPrimitive, denyPrimitive, passPrimitive] 2
        emptyCtx).1 "valid") = true ↔
      ((([passPrimitive, denyPrimitive, passPrimitive].map (evalValid emptyCtx)).count true :
        Int) ≥ 2))) :=
  ⟨by decide, by decide,
   threshold_count [passPrimitive, denyPrimitive, passPrimitive] 2 emptyCtx
     (by decide) (by decide)⟩

/-- C5: the `ParallelAnd` composite invokes every primitive exactly once
regardless of earlier failures (trace = `range N`), is valid iff all
results are valid, and on failure its `metadata.reason` lists the names of
every failed primitive in input order, formatted as Go renders a string
slice. -/
theorem parallelAnd_no_short_circuit (ps : List Primitive) (ctx : DeterministicContext) :
    (parallelAndEval ps ctx).2 = List.range ps.length ∧
    (asBoolTrue (goRead (parallelAndEval ps ctx).1 "valid") = true ↔
      (ps.map (evalValid ctx)).all id = true) ∧
    ((ps.map (evalValid ctx)).all id = false →
      goRead (parallelAndEval ps ctx).1 "metadata" =
        GoVal.vobj [("reason", GoVal.vstr
          ("Failed primitives: " ++ goFmtStrSlice (failedNamesSpec ps ctx)))]) := by
  unfold parallelAndEval
  rw [allResultsLoop_spec]
  by_cases h : (ps.map (evalValid ctx)).all id = true
  · simp [h, goRead, asBoolTrue, List.range_eq_range']
  · have h' : (ps.map (evalValid ctx)).all id = false := by
      simpa using h
    rw [failedNamesSpec, List.enum]
    simp [h', goRead, asBoolTrue, List.range_eq_range', failedNamesLoop_spec]

theorem parallelAnd_no_short_circuit_witness :
    (parallelAndEval [passPrimitive, denyPrimitive] emptyCtx).2 = List.range 2 ∧
    goRead (parallelAndEval [passPrimitive, denyPrimitive] emptyCtx).1 "metadata" =
      GoVal.vobj [("reason", GoVal.vstr
        ("Failed primitives: " ++
          goFmtStrSlice (failedNamesSpec [passPrimitive, denyPrimitive] emptyCtx)))] :=
  ⟨(parallelAnd_no_short_circuit [passPrimitive, denyPrimitive] emptyCtx).1,
   (parallelAnd_no_short_circuit [passPrimitive, denyPrimitive] emptyCtx).2.2 (by decide)⟩

/-- C6: the `SequentialAnd` composite evaluates primitives in input order;
if the first invalid result is at index `i`, it stops there (trace =
`range (i+1)`, later primitives never invoked) and returns `valid=false`
with `metadata.reason` naming the failing primitive and
`metadata.failed_index = i`; if every result is valid it returns
`valid=true` with the generic success message. -/
theorem sequentialAnd_first_failure (ps : List Primitive) (ctx : DeterministicContext) :
    (∀ i, i < ps.length →
      (∀ j, j < i → evalValid ctx (ps.getD j default) = true) →
      evalValid ctx (ps.getD i default) = false →
      (sequentialAndEval ps ctx).2 = List.range (i + 1) ∧
      goRead (sequentialAndEval ps ctx).1 "valid" = GoVal.vbool false ∧
      goRead (sequentialAndEval ps ctx).1 "metadata" = GoVal.vobj
        [("reason", GoVal.vstr
           ("Primitive " ++ getPrimitiveName (ps.getD i default) i ++ " failed")),
         ("failed_index", GoVal.vint i)]) ∧
    ((∀ j, j < ps.length → evalValid ctx (ps.getD j default) = true) →
      (sequentialAndEval ps ctx).2 = List.range ps.length ∧
      goRead (sequentialAndEval ps ctx).1 "valid" = GoVal.vbool true ∧
      goRead (sequentialAndEval ps ctx).1 "metadata" = GoVal.vobj
        [("message", GoVal.vstr "All primitives passed sequentially")]) := by
  constructor
  · intro i hi hb hf
    unfold sequentialAndEval
    rw [seqAndLoop_fail ctx ps 0 i hi hb hf]
    simp [seqFailMap, goRead, List.range_eq_range']
  · intro hall
    unfold sequentialAndEval
    rw [seqAndLoop_pass ctx ps 0 hall]
    simp [seqPassMap, goRead, List.range_eq_range']

theorem sequentialAnd_first_failure_witness :
    (sequentialAndEval [passPrimitive, denyPrimitive, passPrimitive] emptyCtx).2 =
      List.range 2 ∧
    goRead (sequentialAndEval [passPrimitive, denyPrimitive, passPrimitive] emptyCtx).1
      "valid" = GoVal.vbool false ∧
    goRead (sequentialAndEval [passPrimitive, denyPrimitive, passPrimitive] emptyCtx).1
      "metadata" = GoVal.vobj
        [("reason", GoVal.vstr
           ("Primitive " ++
             getPrimitiveName (([passPrimitive, denyPrimitive, passPrimitive] :
               List Primitive).getD 1 default) 1 ++ " failed")),
         ("failed_index", GoVal.vint 1)] :=
  (sequentialAnd_first_failure [passPrimitive, denyPrimitive, passPrimitive] emptyCtx).1
    1 (by decide)
    (fun j hj => by
      cases j with
      | zero => rfl
      | succ m => exact absurd hj (by omega))
    rfl

/-- C3: `GenerateProofWithTime` is deterministic — two calls with equal
decision, evaluation order, signals, and versions at the same explicit
logical time return identical `GovernanceProof` values, and in particular
identical signal-commitment strings, each being the `CommitSignal` digest
of the corresponding signal. -/
theorem generateProofWithTime_deterministic (d1 d2 : Bool) (o1 o2 : List String)
    (s1 s2 : List GoMap) (v1 v2 : List (String × String)) (t : Int)
    (hd : d1 = d2) (ho : o1 = o2) (hs : s1 = s2) (hv : v1 = v2) :
    GenerateProofWithTime d1 o1 s1 v1 t = GenerateProofWithTime d2 o2 s2 v2 t ∧
    (GenerateProofWithTime d1 o1 s1 v1 t).signalCommitments =
      (GenerateProofWithTime d2 o2 s2 v2 t).signalCommitments ∧
    (GenerateProofWithTime d1 o1 s1 v1 t).signalCommitments = s1.map CommitSignal := by
  subst hd; subst ho; subst hs; subst hv
  exact ⟨rfl, rfl, rfl⟩

theorem generateProofWithTime_deterministic_witness :
    GenerateProofWithTime true ["a"]
        [[("valid", GoVal.vbool true), ("metadata", GoVal.vobj [("reason", GoVal.vstr "ok")]),
          ("timestamp", GoVal.vint 5)]] [("a", "1.0")] 42 =
      GenerateProofWithTime true ["a"]
        [[("valid", GoVal.vbool true), ("metadata", GoVal.vobj [("reason", GoVal.vstr "ok")]),
          ("timestamp", GoVal.vint 5)]] [("a", "1.0")] 42 ∧
    (GenerateProofWithTime true ["a"]
        [[("valid", GoVal.vbool true), ("metadata", GoVal.vobj [("reason", GoVal.vstr "ok")]),
          ("timestamp", GoVal.vint 5)]] [("a", "1.0")] 42).signalCommitments =
      (GenerateProofWithTime true ["a"]
        [[("valid", GoVal.vbool true), ("metadata", GoVal.vobj [("reason", GoVal.vstr "ok")]),
          ("timestamp", GoVal.vint 5)]] [("a", "1.0")] 42).signalCommitments ∧
    (GenerateProofWithTime true ["a"]
        [[("valid", GoVal.vbool true), ("metadata", GoVal.vobj [("reason", GoVal.vstr "ok")]),
          ("timestamp", GoVal.vint 5)]] [("a", "1.0")] 42).signalCommitments =
      [[("valid", GoVal.vbool true), ("metadata", GoVal.vobj [("reason", GoVal.vstr "ok")]),
        ("timestamp", GoVal.vint 5)]].map CommitSignal :=
  generateProofWithTime_deterministic true true ["a"] ["a"] _ _ _ _ 42 rfl rfl rfl rfl

/-- C7 (counterexample): the empty-version primitive yields a report none
of whose violations has details `"must be non-empty"` — the code emits
`"Version() must return non-empty string"` instead. -/
theorem checkPrimitive_details_counterexample :
    (CheckPrimitive (some badVersionPrimitive)).map (fun rep =>
      rep.violations.any (fun v => v.details == "must be non-empty")) = Except.ok false := rfl

/-- C7 (amended): `CheckPrimitive` errs exactly on the nil primitive (with
no report); every non-nil primitive yields a report and no error, and an
empty version makes that report non-compliant with a violation for
requirement `version` whose details are
`"Version() must return non-empty string"`. -/
theorem checkPrimitive_nil_and_version :
    CheckPrimitive none = Except.error "primitive cannot be nil" ∧
    ∀ q : Primitive, ∃ rep : ComplianceReport, CheckPrimitive (some q) = Except.ok rep ∧
      (q.version = "" → rep.compliant = false ∧
        rep.violations.any (fun v =>
          v.requirement == "version" &&
          v.details == "Version() must return non-empty string") = true) := by
  refine ⟨rfl, fun q => ⟨_, rfl, fun hv => ?_⟩⟩
  constructor
  · simp [CheckPrimitive, hv]
  · simp [CheckPrimitive, hv]

theorem checkPrimitive_nil_and_version_witness :
    (CheckPrimitive (some badVersionPrimitive)).map ComplianceReport.compliant =
      Except.ok false := by
  obtain ⟨rep, hrep, himp⟩ := checkPrimitive_nil_and_version.2 badVersionPrimitive
  rw [hrep]
  simp [Except.map, (himp rfl).1]

/-- C10: the construction-time deep copy is a JSON round trip, so an
integer stored under `k` is read back by `Get` and `GetItem` as the
`float64` of the same value (not the original integer), and data that
cannot be JSON-marshaled silently yields an empty context. -/
theorem context_roundtrip_float (k : String) (n t : Int) (defv : GoVal) :
    (ctxGet (NewDeterministicContext [(k, GoVal.vint n)] t) k defv = GoVal.vfloat n ∧
     ctxGetItem (NewDeterministicContext [(k, GoVal.vint n)] t) k =
       Except.ok (GoVal.vfloat n) ∧
     GoVal.vfloat n ≠ GoVal.vint n) ∧
    (∀ (data : GoMap) (t' : Int), jmVal (GoVal.vobj data) = none →
      (NewDeterministicContext data t').data = []) := by
  constructor
  · have hdc : (NewDeterministicContext [(k, GoVal.vint n)] t).data = [(k, GoVal.vfloat n)] := by
      simp [NewDeterministicContext, deepCopy, jmVal, jmEntries, jsonNormObj, jsonNorm]
    refine ⟨?_, ?_, by simp⟩
    · simp [ctxGet, hdc, goHas, goRead, deepCopyValue, jsonNorm]
    · simp [ctxGetItem, hdc, goHas, goRead, deepCopyValue, jsonNorm]
  · intro data t' h
    simp [NewDeterministicContext, deepCopy, h]

theorem context_roundtrip_float_witness :
    (ctxGet (NewDeterministicContext [("x", GoVal.vint 1)] 0) "x" GoVal.vnull =
      GoVal.vfloat 1) ∧
    (NewDeterministicContext [("ch", GoVal.opaque_ "chan int")] 0).data = [] :=
  ⟨(context_roundtrip_float "x" 1 0 GoVal.vnull).1.1,
   (context_roundtrip_float "x" 1 0 GoVal.vnull).2 [("ch", GoVal.opaque_ "chan int")] 0 rfl⟩

/-- C8: `ValidateDeterministic` (a) errs on every empty or all-whitespace
source; (b) on non-whitespace source containing the token `time.Now(`,
errs with a message mentioning `time.Now`; (c) on non-whitespace source
matching none of the banned-import patterns, banned-function-call
patterns, the dynamic-import token, or the global-mutable-state patterns,
returns no error. -/
theorem validateDeterministic_lint (src : String) :
    (src.data.all isGoSpace = true → (ValidateDeterministic src).isSome = true) ∧
    (src.data.all isGoSpace = false → hasSubS "time.Now(" src = true →
      ValidateDeterministic src = some (goJoin "; " (allViolations src)) ∧
      hasSubS "time.Now" (goJoin "; " (allViolations src)) = true) ∧
    (src.data.all isGoSpace = false → matchesAnyBanned src = false →
      ValidateDeterministic src = none) := by
  refine ⟨?_, ?_, ?_⟩
  · intro h
    simp [ValidateDeterministic, h]
  · intro hns hsub
    have hre : reMatch (fnCallPattern "time.Now") src = true := by
      apply reMatch_fnCall_of_hasSub
      have hd : ("time.Now".data ++ ['(']) = "time.Now(".data := by decide
      rw [hd]
      exact hsub
    have hmem : "Banned function 'time.Now' found" ∈ functionViolations src := by
      unfold functionViolations
      refine List.mem_flatMap.mpr ⟨"time.Now", by decide, ?_⟩
      simp [hre]
    have hmemAll : "Banned function 'time.Now' found" ∈ allViolations src := by
      unfold allViolations
      simp only [List.mem_append]
      exact Or.inl (Or.inl (Or.inr hmem))
    have hsubJoin : hasSubS "time.Now" (goJoin "; " (allViolations src)) = true :=
      hasSubS_goJoin "; " _ _ hmemAll "time.Now" (by decide)
    have hval : ValidateDeterministic src = some (goJoin "; " (allViolations src)) := by
      rcases hl : allViolations src with _ | ⟨v, vs⟩
      · rw [hl] at hmemAll
        simp at hmemAll
      · simp [ValidateDeterministic, hns, hl]
    exact ⟨hval, hsubJoin⟩
  · intro hns hnone
    simp only [matchesAnyBanned, Bool.or_eq_false_iff] at hnone
    obtain ⟨⟨⟨hImp, hFn⟩, hDun⟩, hGlob⟩ := hnone
    have hImpV : importViolations src = [] := by
      rw [List.any_eq_false] at hImp
      apply flatMap_nil_of
      intro imp himp
      have hthis := hImp imp himp
      rw [Bool.not_eq_true, List.any_eq_false] at hthis
      exact flatMap_guard_nil _ _ _
        (fun pat hpat => by simpa using hthis pat hpat)
    have hFnV : functionViolations src = [] := by
      rw [List.any_eq_false] at hFn
      exact flatMap_guard_nil _ _ _ (fun fn hfn => by simpa using hFn fn hfn)
    have hDunV : dunderImportViolations src = [] := by
      simp [dunderImportViolations, hDun]
    have hGlobV : globalViolations src = [] := by
      simp [globalViolations, hGlob]
    have hAll : allViolations src = [] := by
      simp [allViolations, hImpV, hFnV, hDunV, hGlobV]
    simp [ValidateDeterministic, hns, hAll]

theorem validateDeterministic_lint_witness :
    (ValidateDeterministic " \t\n").isSome = true ∧
    (ValidateDeterministic "x := time.Now()" =
       some (goJoin "; " (allViolations "x := time.Now()")) ∧
     hasSubS "time.Now" (goJoin "; " (allViolations "x := time.Now()")) = true) ∧
    ValidateDeterministic "package p" = none :=
  ⟨(validateDeterministic_lint " \t\n").1 (by decide),
   (validateDeterministic_lint "x := time.Now()").2.1 (by decide) (by decide),
   (validateDeterministic_lint "package p").2.2 (by decide) (by decide)⟩

/-! ## Grounding test vectors (checked in the kernel) -/

/-- FIPS 180-4 SHA-256 test vector. -/
theorem sha256Hex_abc :
    sha256Hex "abc" = "ba7816bf8f01cfea414140de5dae2223b00361a396177a9cb410ff61f20015ad" := by
  decide

/-- A concrete signal commitment: `json.Marshal` output is key-sorted
(`{"metadata":{},"valid":true}`) and the digest is rendered in lowercase
hex. -/
theorem commitSignal_vector :
    CommitSignal [("valid", GoVal.vbool true), ("metadata", GoVal.vobj [])] =
      "79de729fd8dae36f97141ac1534e896afb66735d077f176af8542392ee5c0ab6" := by
  decide

end GSAS
